import Mathlib

/-!
Verification development for the pegomock mocking framework.

The repository ships the code generator (`mockgen/mockgen.go`) and the
engine's behavioural test suite.  The generic invocation-matching and
verification engine itself (GenericMock, matchers, the matcher registry,
count policies, InOrderContext, argument capture) is not among the source
files, so it is modelled here from the specification; the generator and
the behavioural tests pin the concrete message formats and policies.
Values, matchers and the mock state are embedded shallowly; all
definitions are executable.
-/

namespace Pegomock

/-- Modelled from the spec: the shapes of Go return/parameter types the
engine distinguishes (the engine source is not in the repository).  Only
the shape matters: interface-likes and pointer/slice/map/chan/func are
nilable, concrete value types are not. -/
inductive GoType where
  | stringT
  | intT
  | ifaceT
  | errorT
  | ptrT
  | sliceT
  | mapT
  | chanT
  | funcT
deriving DecidableEq, Repr

/-- Modelled from the spec: which type shapes admit a `nil` literal
(interface-shaped, including error-shaped, and pointer/slice/map/chan/func
shapes). -/
def nilable : GoType → Bool
  | .stringT => false
  | .intT => false
  | _ => true

/-- Go's rendering of the type, used in engine error messages. -/
def typeName : GoType → String
  | .stringT => "string"
  | .intT => "int"
  | .ifaceT => "interface\x7b\x7d"
  | .errorT => "error"
  | .ptrT => "ptr"
  | .sliceT => "slice"
  | .mapT => "map"
  | .chanT => "chan"
  | .funcT => "func"

/-- Modelled from the spec: opaque argument/return values (`Param` /
`ReturnValue` in the engine, which is not in the repository sources).
A small universe of dynamic values suffices for the engine semantics. -/
inductive GoVal where
  | nilV
  | str (s : String)
  | intV (n : Int)
  | errV (msg : String)
  | funcV
deriving DecidableEq, Repr

/-- The dynamic type name of a non-nil value, as named in type errors. -/
def dynTypeName : GoVal → String
  | .nilV => "nil"
  | .str _ => "string"
  | .intV _ => "int"
  | .errV _ => "error"
  | .funcV => "func"

/-- Modelled from the spec: assignability of a dynamic value to a declared
return-type shape.  `nil` is assignable exactly to nilable shapes; any
non-nil value is assignable to its own shape and to `interface\x7b\x7d`;
error values also implement the error interface. -/
def assignable : GoVal → GoType → Bool
  | .nilV, t => nilable t
  | .str _, t => t = .stringT || t = .ifaceT
  | .intV _, t => t = .intT || t = .ifaceT
  | .errV _, t => t = .errorT || t = .ifaceT
  | .funcV, t => t = .funcT || t = .ifaceT

/-- Modelled from the spec: the Go zero value for each declared return
type, returned when no stubbing matches. -/
def zeroVal : GoType → GoVal
  | .stringT => .str ""
  | .intT => .intV 0
  | _ => .nilV

/-- Go `%v` rendering of a value, as used inside `with params [...]`. -/
def renderVal : GoVal → String
  | .nilV => "<nil>"
  | .str s => s
  | .intV n => toString n
  | .errV m => m
  | .funcV => "func"

/-- Modelled from the spec: a matcher is a predicate over one argument
with a display label.  Variants: equality registered explicitly (`EqInt`
etc., rendered `Eq(...)`), any-of-type (`AnyInt` etc., rendered
`Any(...)`), and the implicit equality matcher a raw argument value
becomes (rendered as the plain value). -/
inductive Matcher where
  | eqM (v : GoVal)
  | anyM (t : GoType)
  | rawEq (v : GoVal)
deriving DecidableEq, Repr

/-- Modelled from the spec: whether a matcher accepts a concrete value.
An Any matcher accepts every value assignable to its declared type,
including nil for nilable shapes. -/
def Matcher.accepts : Matcher → GoVal → Bool
  | .eqM w, v => v = w
  | .rawEq w, v => v = w
  | .anyM t, v => assignable v t

/-- The display label of a matcher. -/
def Matcher.render : Matcher → String
  | .eqM w => "Eq(" ++ renderVal w ++ ")"
  | .rawEq w => renderVal w
  | .anyM t => "Any(" ++ typeName t ++ ")"

/-- The `[a b c]` rendering of a matcher/param list in failure messages. -/
def renderParams (ms : List Matcher) : String :=
  "[" ++ String.intercalate " " (ms.map Matcher.render) ++ "]"

/-- Modelled from the spec: one recorded call: method name, concrete
arguments, and a monotonically increasing sequence number. -/
structure Invocation where
  methodName : String
  params : List GoVal
  seqNum : Nat
deriving DecidableEq, Repr

/-- Modelled from the spec: one programmed answer of a stubbing: a tuple
of literal return values, or a panic value. -/
inductive Answer where
  | ret (vals : List GoVal)
  | panicAnswer (v : GoVal)
deriving DecidableEq, Repr

/-- Modelled from the spec: a stubbing-table entry: method name, one
matcher per declared parameter, the declared return-type shapes, and the
ordered queue of answers. -/
structure Stubbing where
  methodName : String
  matchers : List Matcher
  returnTypes : List GoType
  answers : List Answer
deriving DecidableEq, Repr

/-- Modelled from the spec: the per-mock-instance engine state: the
append-only invocation log, the stubbing table (most recently registered
last), and the next sequence number (numbering starts at 1 so that an
InOrderContext cursor of 0 means nothing was verified yet). -/
structure GenericMock where
  invocations : List Invocation
  stubbings : List Stubbing
  nextSeqNum : Nat
deriving DecidableEq, Repr

/-- A freshly created mock: empty log, no stubbings. -/
def newGenericMock : GenericMock := ⟨[], [], 1⟩

/-- The exact usage-error message for a registry-drain arity mismatch,
as pinned by the behavioural tests. -/
def invalidUseMessage (expected recorded : Nat) : String :=
  "Invalid use of matchers!\n\n " ++ toString expected ++ " matchers expected, "
    ++ toString recorded ++ " recorded.\n\n"
    ++ "This error may occur if matchers are combined with raw values:\n"
    ++ "    //incorrect:\n"
    ++ "    someFunc(AnyInt(), \"raw String\")\n"
    ++ "When using matchers, all arguments have to be provided by matchers.\n"
    ++ "For example:\n"
    ++ "    //correct:\n"
    ++ "    someFunc(AnyInt(), EqString(\"String by matcher\"))"

/-- Modelled from the spec: draining the matcher registry.  `recorded` is
what matcher-constructor expressions registered since the last drain,
`args` the concrete argument values of the call, `expectedArity` the
method's declared parameter count.  An empty registry means all raw
values were used (each becomes an implicit equality matcher); exactly
`expectedArity` recorded matchers are used as they are; any other count
is a usage error. -/
def drainAndValidate (recorded : List Matcher) (args : List GoVal)
    (expectedArity : Nat) : Except String (List Matcher) :=
  if recorded.length = 0 then .ok (args.map Matcher.rawEq)
  else if recorded.length = expectedArity then .ok recorded
  else .error (invalidUseMessage expectedArity recorded.length)

/-- Modelled from the spec: the count policies `Times(n)` and
`AtLeast(n)`; `Never()` is `Times(0)` and the `VerifyWasCalledOnce`
default is `Times(1)` (the generator emits `pegomock.Times(1)`). -/
inductive CountPolicy where
  | times (n : Nat)
  | atLeast (n : Nat)
deriving DecidableEq, Repr

/-- Modelled from the spec: whether a count policy accepts an observed
qualifying-call count. -/
def CountPolicy.satisfiedBy : CountPolicy → Nat → Bool
  | .times n, c => c = n
  | .atLeast n, c => n ≤ c

/-- The `Expected:` rendering of a count policy in failure messages. -/
def CountPolicy.describe : CountPolicy → String
  | .times n => toString n
  | .atLeast n => "at least " ++ toString n

/-- `Never()` from the engine API. -/
def neverPolicy : CountPolicy := .times 0

/-- The policy `VerifyWasCalledOnce` installs: the generator emits
`invocationCountMatcher: pegomock.Times(1)` (mockgen.go line 234). -/
def verifyWasCalledOncePolicy : CountPolicy := .times 1

/-- Modelled from the spec: does a logged invocation satisfy the
method-name and per-argument matcher filter of a verification. -/
def invocationMatches (method : String) (ms : List Matcher)
    (inv : Invocation) : Bool :=
  inv.methodName = method && ms.length = inv.params.length
    && (List.zip ms inv.params).all fun p => p.1.accepts p.2

/-- Modelled from the spec: the qualifying invocations of a verification:
the log filtered by method name and matchers, in occurrence order. -/
def qualifying (m : GenericMock) (method : String) (ms : List Matcher) :
    List Invocation :=
  m.invocations.filter (invocationMatches method ms)

/-- The exact count-mismatch failure message, as pinned by the
behavioural tests. -/
def countMismatchMessage (method : String) (ms : List Matcher)
    (policy : CountPolicy) (actual : Nat) : String :=
  "Mock invocation count for method \"" ++ method ++ "\" with params "
    ++ renderParams ms ++ " does not match expectation.\n\n\tExpected: "
    ++ policy.describe ++ "; but got: " ++ toString actual

/-- Modelled from the spec: unordered verification: filter the log,
evaluate the count policy on the number of qualifying matches, and on
failure report method, params and expected-vs-actual counts. -/
def verifyCount (m : GenericMock) (policy : CountPolicy) (method : String)
    (ms : List Matcher) : Except String (List Invocation) :=
  let q := qualifying m method ms
  if policy.satisfiedBy q.length then .ok q
  else .error (countMismatchMessage method ms policy q.length)

/-- Modelled from the spec: the full unordered verification entry point:
drain the registry first (usage errors take precedence), then check the
count policy. -/
def verify (m : GenericMock) (policy : CountPolicy) (method : String)
    (args : List GoVal) (recorded : List Matcher) :
    Except String (List Invocation) :=
  match drainAndValidate recorded args args.length with
  | .error e => .error e
  | .ok ms => verifyCount m policy method ms

/-- Modelled from the spec: popping the next answer from a stubbing's
queue: the head is returned; it is removed unless it is the last
remaining answer, which repeats indefinitely.  `none` on an empty queue
(a stubbing never observed in this state by the behavioural tests). -/
def popAnswers : List Answer → Option (Answer × List Answer)
  | [] => none
  | [a] => some (a, [a])
  | a :: b :: rest => some (a, b :: rest)

/-- Modelled from the spec: whether a stubbing-table entry applies to a
call: same method name and every declared-parameter matcher accepts the
corresponding concrete argument. -/
def matchesCall (st : Stubbing) (method : String) (args : List GoVal) : Bool :=
  st.methodName = method && st.matchers.length = args.length
    && (List.zip st.matchers args).all fun p => p.1.accepts p.2

/-- Modelled from the spec: stubbing lookup with last-write-wins: the
table is scanned most-recently-added (list tail) first; the first full
match has its answer queue popped in place. -/
def popFromLastMatch : List Stubbing → String → List GoVal →
    Option (Answer × List Stubbing)
  | [], _, _ => none
  | st :: rest, method, args =>
    match popFromLastMatch rest method args with
    | some (a, rest2) => some (a, st :: rest2)
    | none =>
      if matchesCall st method args then
        match popAnswers st.answers with
        | some (a, remaining) =>
          some (a, ⟨st.methodName, st.matchers, st.returnTypes, remaining⟩ :: rest)
        | none => none
      else none

/-- Modelled from the spec: the observable outcome of `Invoke`: either a
tuple of return values or a programmed panic propagating to the caller. -/
inductive InvokeResult where
  | returned (vals : List GoVal)
  | panicked (v : GoVal)
deriving DecidableEq, Repr

/-- Modelled from the spec: resolving a popped answer into the call's
outcome. -/
def answerResult : Answer → InvokeResult
  | .ret vals => .returned vals
  | .panicAnswer v => .panicked v

/-- Modelled from the spec: `Invoke`: append the call to the log with a
fresh sequence number, resolve the most recently registered matching
stubbing, and return its next answer; with no matching stubbing, return
the zero value for each declared return type (no failure). -/
def invoke (m : GenericMock) (method : String) (args : List GoVal)
    (returnTypes : List GoType) : GenericMock × InvokeResult :=
  let inv : Invocation := ⟨method, args, m.nextSeqNum⟩
  match popFromLastMatch m.stubbings method args with
  | some (a, stubbings2) =>
    (⟨m.invocations ++ [inv], stubbings2, m.nextSeqNum + 1⟩, answerResult a)
  | none =>
    (⟨m.invocations ++ [inv], m.stubbings, m.nextSeqNum + 1⟩,
     .returned (returnTypes.map zeroVal))

/-- `n` repeated identical calls; returns the final mock state and the
outcome of each call in order. -/
def invokeRepeat (m : GenericMock) (method : String) (args : List GoVal)
    (returnTypes : List GoType) : Nat → GenericMock × List InvokeResult
  | 0 => (m, [])
  | n + 1 =>
    let step := invoke m method args returnTypes
    let rest := invokeRepeat step.1 method args returnTypes n
    (rest.1, step.2 :: rest.2)

/-- Modelled from the spec: the first failing literal, if any, when
coercing programmed return values to the declared return-type shapes:
`nil` into a non-nilable shape, or a value whose dynamic type is not
assignable, each with the exact message the tests pin. -/
def checkAssignable : List GoVal → List GoType → Option String
  | [], _ => none
  | _, [] => none
  | v :: vs, t :: ts =>
    if assignable v t then checkAssignable vs ts
    else some (match v with
      | .nilV => "Return value 'nil' not assignable to return type " ++ typeName t
      | _ => "Return value of type " ++ dynTypeName v
          ++ " not assignable to return type " ++ typeName t)

/-- Modelled from the spec: `ThenReturn`: validate the literals against
the stubbing's declared return types (a fatal type error at
stub-definition time on mismatch), else append one more answer to the
queue. -/
def Stubbing.thenReturn (st : Stubbing) (vals : List GoVal) :
    Except String Stubbing :=
  match checkAssignable vals st.returnTypes with
  | some e => .error e
  | none => .ok ⟨st.methodName, st.matchers, st.returnTypes, st.answers ++ [.ret vals]⟩

/-- Modelled from the spec: the `When` operation: drain the registry
(raw values become implicit equality matchers; an arity mismatch is the
same usage error as in verification) and register a stubbing-table entry
after all existing ones. The trigger call is not left in the invocation
log.  `answers` carries what the chained `ThenReturn`/`ThenPanic` calls
queue. -/
def whenStub (m : GenericMock) (method : String) (args : List GoVal)
    (recorded : List Matcher) (returnTypes : List GoType)
    (answers : List Answer) : Except String GenericMock :=
  match drainAndValidate recorded args args.length with
  | .error e => .error e
  | .ok ms =>
    .ok ⟨m.invocations, m.stubbings ++ [⟨method, ms, returnTypes, answers⟩],
         m.nextSeqNum⟩

/-- Modelled from the spec: the cross-mock ordering cursor; 0 means no
in-order verification succeeded yet (sequence numbers start at 1). -/
structure InOrderContext where
  cursor : Nat
deriving DecidableEq, Repr

/-- A fresh in-order context. -/
def newInOrderContext : InOrderContext := ⟨0⟩

/-- The logged invocation carrying a given sequence number, if any. -/
def invocationAt (m : GenericMock) (s : Nat) : Option Invocation :=
  m.invocations.find? fun inv => inv.seqNum = s

/-- The exact ordering-violation message: the verification that should
have come earlier, then the already-verified call it should have
preceded (the one the cursor rests on). -/
def orderViolationMessage (method : String) (ms : List Matcher)
    (prev : Option Invocation) : String :=
  "Expected function call \"" ++ method ++ "\" with params " ++ renderParams ms
    ++ " before function call "
    ++ (match prev with
        | some inv => "\"" ++ inv.methodName ++ "\" with params "
            ++ renderParams (inv.params.map Matcher.rawEq)
        | none => "\"?\"")

/-- Modelled from the spec: in-order verification.  Qualifying entries
are further restricted to sequence numbers beyond the cursor; if the
earliest qualifying entry overall lies before the cursor that is an
ordering violation (fail without advancing the cursor); otherwise the
count policy is evaluated on the restricted matches and on success the
cursor advances to the last qualifying match.  The possibly-updated
context is returned alongside the outcome. -/
def verifyInOrder (m : GenericMock) (ctx : InOrderContext)
    (policy : CountPolicy) (method : String) (ms : List Matcher) :
    Except String (List Invocation) × InOrderContext :=
  let q := qualifying m method ms
  let qAfter := q.filter fun inv => ctx.cursor < inv.seqNum
  let violation : Bool := match q.head? with
    | some earliest => decide (earliest.seqNum < ctx.cursor)
    | none => false
  if violation then
    (.error (orderViolationMessage method ms (invocationAt m ctx.cursor)), ctx)
  else if policy.satisfiedBy qAfter.length then
    (.ok qAfter,
     ⟨match qAfter.getLast? with
       | some l => l.seqNum
       | none => ctx.cursor⟩)
  else
    (.error (countMismatchMessage method ms policy qAfter.length), ctx)

/-- Modelled from the spec: `GetInvocationParams`: the per-position value
sequences of a set of matched invocations (position-major transpose of
the argument rows). -/
def getInvocationParams (invs : List Invocation) : List (List GoVal) :=
  match invs with
  | [] => []
  | inv0 :: _ =>
    (List.range inv0.params.length).map fun x =>
      invs.map fun inv => inv.params.getD x GoVal.nilV

/-- Generated `GetAllCapturedArguments` for a non-variadic method of the
given arity: per declared parameter position, the argument of every
matched invocation in occurrence order (mockgen.go lines 308-344). -/
def getAllCapturedArguments (invs : List Invocation) (arity : Nat) :
    List (List GoVal) :=
  (List.range arity).map fun i => (getInvocationParams invs).getD i []

/-- Generated `GetAllCapturedArguments` at the variadic position: for
each matched invocation, its variadic tail is reassembled from the
positions at and beyond the fixed arity (mockgen.go lines 317-330). -/
def getAllCapturedVariadic (invs : List Invocation) (fixedArity : Nat) :
    List (List GoVal) :=
  let ps := getInvocationParams invs
  (List.range invs.length).map fun u =>
    (ps.drop fixedArity).map fun col => col.getD u GoVal.nilV

/-- Generated `GetCapturedArguments`: the last element of each
per-position sequence of `GetAllCapturedArguments` (mockgen.go lines
293-306). -/
def getCapturedArguments (invs : List Invocation) (arity : Nat) :
    List GoVal :=
  (getAllCapturedArguments invs arity).map fun l => l.getD (l.length - 1) GoVal.nilV

/-- Modelled from the spec: the eventual-verification poll loop over
discrete poll instants.  `sat t` is whether the count policy holds at
instant `t`; the fuel is the number of in-loop checks before the
deadline.  With fuel exhausted (the deadline elapsed) the policy is
evaluated one final time before failure is declared. -/
def pollLoop (sat : Nat → Bool) : Nat → Nat → Bool
  | 0, t => sat t
  | fuel + 1, t => if sat t then true else pollLoop sat fuel (t + 1)

/-- Modelled from the spec: `VerifyWasCalledEventually` with a deadline
of `d` poll instants: poll from instant 0; instants before `d` are
in-loop checks, instant `d` is the final post-deadline check. -/
def verifyEventually (sat : Nat → Bool) (d : Nat) : Bool :=
  pollLoop sat d 0

end Pegomock

namespace Mockgen

/-- Go strings as rune sequences, as `range` iterates them. -/
abbrev GoStr := List Char

/-- Embeds Go's `unicode.IsLetter` (category L; the Unicode tables beyond
ASCII are immaterial to the properties proved here). -/
def goIsLetter (c : Char) : Bool := c.isAlpha

/-- Embeds Go's `unicode.IsDigit` (category Nd). -/
def goIsDigit (c : Char) : Bool := c.isDigit

/-- The Go keywords, exactly what `token.Lookup(name).IsKeyword()`
recognizes. -/
def goKeywords : List GoStr :=
  (["break", "case", "chan", "const", "continue", "default", "defer",
    "else", "fallthrough", "for", "func", "go", "goto", "if",
    "import", "interface", "map", "package", "range", "return",
    "select", "struct", "switch", "type", "var"] : List String).map
    String.toList

/-- `token.Lookup(s).IsKeyword()` from mockgen.go line 94. -/
def isGoKeyword (s : GoStr) : Bool := goKeywords.contains s

/-- The first-character rule of `sanitize` (mockgen.go lines 119-123):
kept when a letter or underscore, else replaced by an underscore. -/
def sanitizeHeadChar (c : Char) : Char :=
  if goIsLetter c || c = '_' then c else '_'

/-- The subsequent-character rule of `sanitize` (mockgen.go lines
124-129): kept when a letter, digit or underscore, else replaced by an
underscore. -/
def sanitizeTailChar (c : Char) : Char :=
  if goIsLetter c || goIsDigit c || c = '_' then c else '_'

/-- `sanitize` (mockgen.go lines 116-136): per-rune replacement with the
head/tail rules above, and a lone underscore result becomes `x`. -/
def sanitize : GoStr → GoStr
  | [] => []
  | c :: cs =>
    let t := sanitizeHeadChar c :: cs.map sanitizeTailChar
    if t = ['_'] then ['x'] else t

/-- Go's `path.Base`: empty path gives `.`; trailing slashes are
stripped; an all-slash path gives `/`; otherwise the segment after the
last slash. -/
def pathBase (p : GoStr) : GoStr :=
  if p = [] then ['.']
  else
    let r := p.reverse.dropWhile fun c => c = '/'
    if r = [] then ['/']
    else (r.takeWhile fun c => c ≠ '/').reverse

/-- The decimal digit characters of `strconv.Itoa`. -/
def digitChar : Nat → Char
  | 0 => '0'
  | 1 => '1'
  | 2 => '2'
  | 3 => '3'
  | 4 => '4'
  | 5 => '5'
  | 6 => '6'
  | 7 => '7'
  | 8 => '8'
  | 9 => '9'
  | _ => '_'

/-- The numeric value of a decimal digit character. -/
def charDigit (c : Char) : Nat := c.toNat - 48

/-- `strconv.Itoa` on naturals: the usual decimal rendering. -/
def itoa (n : Nat) : GoStr :=
  if n = 0 then ['0'] else ((Nat.digits 10 n).map digitChar).reverse

/-- Decimal parsing, a left inverse of `itoa`. -/
def atoi (l : GoStr) : Nat := Nat.ofDigits 10 (l.reverse.map charDigit)

/-- The candidate package names tried by the collision loop (mockgen.go
lines 93-96): the sanitized base name itself, then with suffixes
0, 1, 2, ... -/
def candName (base : GoStr) : Nat → GoStr
  | 0 => base
  | i + 1 => base ++ itoa i

/-- The loop condition of mockgen.go line 94: a candidate is rejected
while it is already used or is a Go keyword. -/
def isBadName (used : List GoStr) (s : GoStr) : Bool :=
  used.contains s || isGoKeyword s

/-- The collision loop of mockgen.go lines 93-96, with explicit fuel:
starting from candidate index `i`, return the first candidate the loop
condition accepts, or the current candidate once the fuel is spent. -/
def pickFrom (base : GoStr) (used : List GoStr) : Nat → Nat → GoStr
  | i, 0 => candName base i
  | i, fuel + 1 =>
    if isBadName used (candName base i) then pickFrom base used (i + 1) fuel
    else candName base i

/-- The package name chosen for one import path given the names already
used.  The fuel bound exceeds the number of possible rejections, so the
result is exactly what the unbounded loop in mockgen.go computes
(`pickFrom_not_bad` below proves the bound suffices). -/
def pickPackageName (base : GoStr) (used : List GoStr) : GoStr :=
  pickFrom base used 0 (used.length + goKeywords.length + 1)

/-- The body of `generateUniquePackageNamesFor` (mockgen.go lines
85-102): process the import paths in (map-iteration) order, threading
the set of names already used; each path is assigned
`pickPackageName (sanitize path.Base) used` and its name is marked
used. -/
def generateUniqueLoop : List GoStr → List GoStr → List (GoStr × GoStr)
  | [], _ => []
  | p :: ps, used =>
    let name := pickPackageName (sanitize (pathBase p)) used
    (p, name) :: generateUniqueLoop ps (name :: used)

/-- `generateUniquePackageNamesFor` (mockgen.go lines 81-104), as the
association list from import path to assigned package name. -/
def generateUniquePackageNamesFor (importPaths : List GoStr) :
    List (GoStr × GoStr) :=
  generateUniqueLoop importPaths []

/-- A character permitted after the first one in a Go identifier. -/
def isGoIdentChar (c : Char) : Bool := goIsLetter c || goIsDigit c || c = '_'

/-- A valid non-empty Go identifier: letters/digits/underscores, starting
with a letter or underscore. -/
def isValidGoIdent : GoStr → Bool
  | [] => false
  | c :: cs => (goIsLetter c || c = '_') && cs.all isGoIdentChar

/-- Import paths exercising both duplicate base names and a keyword base
name (`html/template` vs `text/template`, and `foo/case`). -/
def demoImportPaths : List GoStr :=
  ["html/template".toList, "text/template".toList, "foo/case".toList]

end Mockgen

namespace Pegomock

/-- The mock state after the two `Flash("Hello", 333)` calls of the
"Calling Flash() twice" test context. -/
def flashTwiceMock : GenericMock :=
  (invoke (invoke newGenericMock "Flash" [.str "Hello", .intV 333] []).1
    "Flash" [.str "Hello", .intV 333] []).1

/-- The raw-value argument pattern `("Hello", 333)`. -/
def flashHello333 : List Matcher := [.rawEq (.str "Hello"), .rawEq (.intV 333)]

/-- The mock state after the three ordered `Flash` calls of the
"Making calls in a specific order" test context. -/
def threeFlashMock : GenericMock :=
  (invoke (invoke (invoke newGenericMock "Flash" [.str "Hello", .intV 111] []).1
    "Flash" [.str "again", .intV 222] []).1
    "Flash" [.str "and again", .intV 333] []).1

/-- The raw-value argument pattern `("Hello", 111)`. -/
def flashHello111 : List Matcher := [.rawEq (.str "Hello"), .rawEq (.intV 111)]

/-- The raw-value argument pattern `("again", 222)`. -/
def flashAgain222 : List Matcher := [.rawEq (.str "again"), .rawEq (.intV 222)]

/-- The raw-value argument pattern `("and again", 333)`. -/
def flashAndAgain333 : List Matcher :=
  [.rawEq (.str "and again"), .rawEq (.intV 333)]

/-- The mock state after the two `Flash` calls of the "Capturing
arguments" test context. -/
def captureMock : GenericMock :=
  (invoke (invoke newGenericMock "Flash" [.str "Hello", .intV 111] []).1
    "Flash" [.str "Again", .intV 222] []).1

/-- The stubbing created by
`When(display.SomeValue()).ThenReturn("Hello").ThenReturn("again")`. -/
def someValueStubbing : Stubbing :=
  ⟨"SomeValue", [], [.stringT], [.ret [.str "Hello"], .ret [.str "again"]]⟩

/-- The earlier of two stubbings with identical parameters
(`ThenReturn("first")`). -/
def firstStubbing : Stubbing :=
  ⟨"MultipleParamsAndReturnValue", [.rawEq (.str "one"), .rawEq (.intV 1)],
   [.stringT], [.ret [.str "first"]]⟩

/-- The later of two stubbings with identical parameters
(`ThenReturn("second")`). -/
def secondStubbing : Stubbing :=
  ⟨"MultipleParamsAndReturnValue", [.rawEq (.str "one"), .rawEq (.intV 1)],
   [.stringT], [.ret [.str "second"]]⟩

/-- A qualifying-call-count trace that becomes 1 from poll instant 2 on:
the condition is false when eventual verification starts and becomes
true before a deadline of 5. -/
def countsFromTwo : Nat → Nat := fun t => if 2 ≤ t then 1 else 0

end Pegomock

namespace Pegomock

theorem verifyCount_ok_iff (m : GenericMock) (policy : CountPolicy)
    (method : String) (ms : List Matcher) :
    (∃ q, verifyCount m policy method ms = .ok q) ↔
      policy.satisfiedBy (qualifying m method ms).length = true := by
  unfold verifyCount
  cases h : policy.satisfiedBy (qualifying m method ms).length <;> simp [h]

/-- Claim C1: for every mock, method and argument pattern, verification
with `Times(n)` succeeds iff the qualifying-call count equals `n`,
`AtLeast(n)` iff the count is at least `n`, `Never()` iff the count is
0, and the `VerifyWasCalledOnce` default policy iff the count is exactly
1; on failure the reported message names the method, the rendered
params, and the expected and actual counts. -/
theorem count_policy_verification (m : GenericMock) (method : String)
    (ms : List Matcher) (n : Nat) :
    ((∃ q, verifyCount m (.times n) method ms = .ok q) ↔
      (qualifying m method ms).length = n) ∧
    ((∃ q, verifyCount m (.atLeast n) method ms = .ok q) ↔
      n ≤ (qualifying m method ms).length) ∧
    ((∃ q, verifyCount m neverPolicy method ms = .ok q) ↔
      (qualifying m method ms).length = 0) ∧
    ((∃ q, verifyCount m verifyWasCalledOncePolicy method ms = .ok q) ↔
      (qualifying m method ms).length = 1) ∧
    (∀ policy : CountPolicy,
      policy.satisfiedBy (qualifying m method ms).length = false →
      verifyCount m policy method ms = .error
        ("Mock invocation count for method \"" ++ method ++ "\" with params "
          ++ renderParams ms ++ " does not match expectation.\n\n\tExpected: "
          ++ policy.describe ++ "; but got: "
          ++ toString (qualifying m method ms).length)) := by
  refine ⟨?_, ?_, ?_, ?_, ?_⟩
  · rw [verifyCount_ok_iff]; simp [CountPolicy.satisfiedBy]
  · rw [verifyCount_ok_iff]; simp [CountPolicy.satisfiedBy]
  · rw [verifyCount_ok_iff]; simp [neverPolicy, CountPolicy.satisfiedBy]
  · rw [verifyCount_ok_iff]
    simp [verifyWasCalledOncePolicy, CountPolicy.satisfiedBy]
  · intro policy h
    unfold verifyCount
    simp [h, countMismatchMessage]

/-- Witness for C1, reproducing the "Calling Flash() twice" tests:
`Times(2)` succeeds on two qualifying calls, and `VerifyWasCalledOnce`
fails with the exact message the test expects. -/
theorem count_policy_verification_witness :
    (∃ q, verifyCount flashTwiceMock (.times 2) "Flash" flashHello333 = .ok q) ∧
    verifyCount flashTwiceMock verifyWasCalledOncePolicy "Flash" flashHello333 =
      .error ("Mock invocation count for method \"Flash\" with params [Hello 333]"
        ++ " does not match expectation.\n\n\tExpected: 1; but got: 2") := by
  constructor
  · exact (count_policy_verification flashTwiceMock "Flash" flashHello333 2).1.mpr
      (by rfl)
  · exact ((count_policy_verification flashTwiceMock "Flash" flashHello333 2).2.2.2.2
      verifyWasCalledOncePolicy (by rfl)).trans (by rfl)

/-- Claim C4: a registry drain whose recorded matcher count is neither 0
nor the declared arity fails, both in `When`-stubbing and in
verification, with the usage-error message stating the expected and
recorded counts and instructing not to mix matchers and raw values. -/
theorem matcher_arity_mismatch (m : GenericMock) (method : String)
    (args : List GoVal) (recorded : List Matcher) (rts : List GoType)
    (answers : List Answer) (policy : CountPolicy)
    (h0 : recorded.length ≠ 0) (hp : recorded.length ≠ args.length) :
    drainAndValidate recorded args args.length =
      .error (invalidUseMessage args.length recorded.length) ∧
    whenStub m method args recorded rts answers =
      .error (invalidUseMessage args.length recorded.length) ∧
    verify m policy method args recorded =
      .error (invalidUseMessage args.length recorded.length) := by
  have hd : drainAndValidate recorded args args.length =
      .error (invalidUseMessage args.length recorded.length) := by
    unfold drainAndValidate
    simp [h0, hp]
  refine ⟨hd, ?_, ?_⟩
  · unfold whenStub; rw [hd]
  · unfold verify; rw [hd]

/-- Witness for C4, reproducing the mixed-matcher tests: one matcher
recorded for a two-parameter method fails with the exact message the
tests expect. -/
theorem matcher_arity_mismatch_witness :
    whenStub newGenericMock "MultipleParamsAndReturnValue"
        [.str "", .intV 333] [.eqM (.str "Hello")] [.stringT] [] =
      .error ("Invalid use of matchers!\n\n 2 matchers expected, 1 recorded.\n\n"
        ++ "This error may occur if matchers are combined with raw values:\n"
        ++ "    //incorrect:\n"
        ++ "    someFunc(AnyInt(), \"raw String\")\n"
        ++ "When using matchers, all arguments have to be provided by matchers.\n"
        ++ "For example:\n"
        ++ "    //correct:\n"
        ++ "    someFunc(AnyInt(), EqString(\"String by matcher\"))") :=
  ((matcher_arity_mismatch newGenericMock "MultipleParamsAndReturnValue"
      [.str "", .intV 333] [.eqM (.str "Hello")] [.stringT] []
      verifyWasCalledOncePolicy (by decide) (by decide)).2.1).trans (by rfl)

theorem popFromLastMatch_eq_none (sts : List Stubbing) (method : String)
    (args : List GoVal)
    (h : ∀ st ∈ sts, matchesCall st method args = false) :
    popFromLastMatch sts method args = none := by
  induction sts with
  | nil => rfl
  | cons st rest ih =>
    have hrest := ih fun s hs => h s (List.mem_cons_of_mem st hs)
    have hst := h st (List.mem_cons_self st rest)
    unfold popFromLastMatch
    rw [hrest, hst]
    simp

/-- Claim C5: a call to a mock method with no matching stubbing is
logged and returns the zero value for each declared return type,
without failing or panicking. -/
theorem unmatched_invoke_returns_zero_values (m : GenericMock)
    (method : String) (args : List GoVal) (rts : List GoType)
    (h : ∀ st ∈ m.stubbings, matchesCall st method args = false) :
    invoke m method args rts =
      (⟨m.invocations ++ [⟨method, args, m.nextSeqNum⟩], m.stubbings,
        m.nextSeqNum + 1⟩,
       .returned (rts.map zeroVal)) := by
  unfold invoke
  rw [popFromLastMatch_eq_none m.stubbings method args h]

/-- Witness for C5, reproducing "Calling SomeValue() with no stubbing":
the zero value of a string return type is the empty string. -/
theorem unmatched_invoke_returns_zero_values_witness :
    invoke newGenericMock "SomeValue" [] [.stringT] =
      (⟨[⟨"SomeValue", [], 1⟩], [], 2⟩, .returned [.str ""]) :=
  (unmatched_invoke_returns_zero_values newGenericMock "SomeValue" [] [.stringT]
    (by intro st hst; simp [newGenericMock] at hst)).trans (by rfl)

/-- Claim C6: `ThenReturn` with a nil literal succeeds exactly when the
declared return type is nilable (interface-shaped, including error, or
pointer/slice/map/chan/func-shaped) and otherwise fails with a type
error naming the return type; `ThenReturn` with a non-nil literal whose
dynamic type is not assignable to the declared return type fails with a
type error naming both types. -/
theorem thenReturn_type_checks (st : Stubbing) (t : GoType)
    (hrt : st.returnTypes = [t]) :
    ((∃ st2, st.thenReturn [.nilV] = .ok st2) ↔ nilable t = true) ∧
    (nilable t = false →
      st.thenReturn [.nilV] =
        .error ("Return value 'nil' not assignable to return type "
          ++ typeName t)) ∧
    (∀ v : GoVal, v ≠ .nilV → assignable v t = false →
      st.thenReturn [v] =
        .error ("Return value of type " ++ dynTypeName v
          ++ " not assignable to return type " ++ typeName t)) ∧
    nilable .ifaceT = true ∧ nilable .errorT = true := by
  refine ⟨?_, ?_, ?_, rfl, rfl⟩
  · unfold Stubbing.thenReturn
    rw [hrt]
    cases h : nilable t with
    | false =>
      simp only [checkAssignable, assignable, h]
      simp
    | true =>
      simp only [checkAssignable, assignable, h]
      simp [checkAssignable]
  · intro h
    unfold Stubbing.thenReturn
    rw [hrt]
    simp only [checkAssignable, assignable, h]
    simp
  · intro v hv h
    unfold Stubbing.thenReturn
    rw [hrt]
    simp only [checkAssignable, h]
    cases v with
    | nilV => exact absurd rfl hv
    | str s => simp
    | intV n => simp
    | errV msg => simp
    | funcV => simp

/-- Witness for C6, reproducing the stubbing type-error tests: nil into
a string return fails with the exact message; a string into an error
return fails naming both types; nil into an error return succeeds. -/
theorem thenReturn_type_checks_witness :
    Stubbing.thenReturn ⟨"SomeValue", [], [.stringT], []⟩ [.nilV] =
      .error "Return value 'nil' not assignable to return type string" ∧
    Stubbing.thenReturn ⟨"ErrorReturnValue", [], [.errorT], []⟩ [.str "Blub"] =
      .error "Return value of type string not assignable to return type error" ∧
    (∃ st2, Stubbing.thenReturn ⟨"ErrorReturnValue", [], [.errorT], []⟩ [.nilV] =
      .ok st2) := by
  refine ⟨?_, ?_, ?_⟩
  · exact ((thenReturn_type_checks ⟨"SomeValue", [], [.stringT], []⟩ .stringT
      rfl).2.1 (by rfl)).trans (by rfl)
  · exact ((thenReturn_type_checks ⟨"ErrorReturnValue", [], [.errorT], []⟩ .errorT
      rfl).2.2.1 (.str "Blub") (by decide) (by rfl)).trans (by rfl)
  · exact (thenReturn_type_checks ⟨"ErrorReturnValue", [], [.errorT], []⟩ .errorT
      rfl).1.mpr (by rfl)

/-- Claim C7: for in-order verification, if the earliest qualifying
invocation overall lies strictly before the cursor, verification fails
naming the expected-earlier call and the already-verified call it should
have preceded, and the cursor does not advance.  Moreover, over the
three ordered calls `Flash("Hello",111)`, `Flash("again",222)`,
`Flash("and again",333)`: verifying the first then the third through one
context succeeds (the middle call may be skipped) with the cursor
advancing to the last qualifying match each time, while verifying the
second and then the first fails with the exact message of the test,
leaving the cursor where it was. -/
theorem in_order_verification :
    (∀ (m : GenericMock) (ctx : InOrderContext) (policy : CountPolicy)
       (method : String) (ms : List Matcher) (e : Invocation),
       (qualifying m method ms).head? = some e → e.seqNum < ctx.cursor →
       verifyInOrder m ctx policy method ms =
         (.error (orderViolationMessage method ms (invocationAt m ctx.cursor)),
          ctx)) ∧
    verifyInOrder threeFlashMock ⟨0⟩ (.times 1) "Flash" flashHello111 =
      (.ok [⟨"Flash", [.str "Hello", .intV 111], 1⟩], ⟨1⟩) ∧
    verifyInOrder threeFlashMock ⟨1⟩ (.times 1) "Flash" flashAndAgain333 =
      (.ok [⟨"Flash", [.str "and again", .intV 333], 3⟩], ⟨3⟩) ∧
    verifyInOrder threeFlashMock ⟨0⟩ (.times 1) "Flash" flashAgain222 =
      (.ok [⟨"Flash", [.str "again", .intV 222], 2⟩], ⟨2⟩) ∧
    verifyInOrder threeFlashMock ⟨2⟩ (.times 1) "Flash" flashHello111 =
      (.error ("Expected function call \"Flash\" with params [Hello 111]"
        ++ " before function call \"Flash\" with params [again 222]"), ⟨2⟩) := by
  refine ⟨?_, by rfl, by rfl, by rfl, by rfl⟩
  intro m ctx policy method ms e he hlt
  unfold verifyInOrder
  simp only [he]
  simp [hlt]

/-- Witness for C7: the general ordering-violation law applied to the
concrete out-of-order verification of the test. -/
theorem in_order_verification_witness :
    verifyInOrder threeFlashMock ⟨2⟩ (.atLeast 0) "Flash" flashHello111 =
      (.error ("Expected function call \"Flash\" with params [Hello 111]"
        ++ " before function call \"Flash\" with params [again 222]"), ⟨2⟩) :=
  (in_order_verification.1 threeFlashMock ⟨2⟩ (.atLeast 0) "Flash" flashHello111
    ⟨"Flash", [.str "Hello", .intV 111], 1⟩ (by rfl) (by decide)).trans (by rfl)

theorem pollLoop_true_iff (sat : Nat → Bool) :
    ∀ (fuel t0 : Nat), pollLoop sat fuel t0 = true ↔
      ∃ j, j ≤ fuel ∧ sat (t0 + j) = true := by
  intro fuel
  induction fuel with
  | zero =>
    intro t0
    simp [pollLoop, Nat.le_zero]
  | succ fuel ih =>
    intro t0
    unfold pollLoop
    cases h : sat t0 with
    | true =>
      constructor
      · intro _
        exact ⟨0, Nat.zero_le _, by simpa using h⟩
      · intro _
        simp
    | false =>
      simp only [Bool.false_eq_true, if_false]
      rw [ih (t0 + 1)]
      constructor
      · rintro ⟨j, hj, hs⟩
        exact ⟨j + 1, by omega, by rwa [show t0 + (j + 1) = t0 + 1 + j by omega]⟩
      · rintro ⟨j, hj, hs⟩
        cases j with
        | zero =>
          rw [Nat.add_zero, h] at hs
          exact absurd hs (by simp)
        | succ j =>
          exact ⟨j, by omega, by rwa [show t0 + 1 + j = t0 + (j + 1) by omega]⟩

theorem pollLoop_of_all_false (sat : Nat → Bool) :
    ∀ (fuel t0 : Nat), (∀ j, j < fuel → sat (t0 + j) = false) →
      pollLoop sat fuel t0 = sat (t0 + fuel) := by
  intro fuel
  induction fuel with
  | zero =>
    intro t0 _
    simp [pollLoop]
  | succ fuel ih =>
    intro t0 h
    unfold pollLoop
    have h0 : sat t0 = false := by simpa using h 0 (Nat.succ_pos fuel)
    rw [h0]
    simp only [Bool.false_eq_true, if_false]
    rw [ih (t0 + 1) fun j hj => by
      have := h (j + 1) (by omega)
      rwa [show t0 + (j + 1) = t0 + 1 + j by omega] at this]
    congr 1
    omega

/-- Claim C9: eventual (timeout-based) verification succeeds exactly
when the count policy is satisfied at some poll instant up to the
deadline: in particular it succeeds when the policy becomes satisfied at
any instant strictly before the deadline even if unsatisfied at the
start, and when the policy is unsatisfied at every instant before the
deadline the outcome is decided by the one final policy evaluation after
the deadline elapses. -/
theorem eventual_verification (policy : CountPolicy) (counts : Nat → Nat)
    (d : Nat) :
    (verifyEventually (fun t => policy.satisfiedBy (counts t)) d = true ↔
      ∃ t, t ≤ d ∧ policy.satisfiedBy (counts t) = true) ∧
    ((∃ t, t < d ∧ policy.satisfiedBy (counts t) = true) →
      verifyEventually (fun t => policy.satisfiedBy (counts t)) d = true) ∧
    ((∀ t, t < d → policy.satisfiedBy (counts t) = false) →
      verifyEventually (fun t => policy.satisfiedBy (counts t)) d =
        policy.satisfiedBy (counts d)) := by
  have hiff : verifyEventually (fun t => policy.satisfiedBy (counts t)) d = true ↔
      ∃ t, t ≤ d ∧ policy.satisfiedBy (counts t) = true := by
    unfold verifyEventually
    rw [pollLoop_true_iff]
    constructor
    · rintro ⟨j, hj, hs⟩
      exact ⟨j, hj, by simpa using hs⟩
    · rintro ⟨t, ht, hs⟩
      exact ⟨t, ht, by simpa using hs⟩
  refine ⟨hiff, ?_, ?_⟩
  · rintro ⟨t, ht, hs⟩
    exact hiff.mpr ⟨t, by omega, hs⟩
  · intro h
    unfold verifyEventually
    have := pollLoop_of_all_false (fun t => policy.satisfiedBy (counts t)) d 0
      fun j hj => by simpa using h j hj
    simpa using this

/-- Witness for C9: with a qualifying-call count that becomes 1 at poll
instant 2, `Times(1)` eventual verification against a deadline of 5
succeeds although the condition is false at the start; with a count that
stays 0, it fails, the outcome being the final post-deadline check. -/
theorem eventual_verification_witness :
    verifyEventually (fun t => CountPolicy.satisfiedBy verifyWasCalledOncePolicy
      (countsFromTwo t)) 5 = true ∧
    verifyEventually (fun t => CountPolicy.satisfiedBy verifyWasCalledOncePolicy
      ((fun _ => 0) t)) 5 = false := by
  constructor
  · exact (eventual_verification verifyWasCalledOncePolicy countsFromTwo 5).2.1
      ⟨2, by omega, by rfl⟩
  · exact ((eventual_verification verifyWasCalledOncePolicy (fun _ => 0) 5).2.2
      fun t _ => by rfl).trans (by rfl)

theorem popAnswers_cons (a : Answer) (rest : List Answer) :
    popAnswers (a :: rest) = some (a, if rest.isEmpty then [a] else rest) := by
  cases rest <;> rfl

theorem popFromLastMatch_append (pre : List Stubbing) (st : Stubbing)
    (method : String) (args : List GoVal) (a : Answer) (rest : List Answer)
    (hm : matchesCall st method args = true) (ha : st.answers = a :: rest) :
    popFromLastMatch (pre ++ [st]) method args =
      some (a, pre ++ [⟨st.methodName, st.matchers, st.returnTypes,
        if rest.isEmpty then [a] else rest⟩]) := by
  induction pre with
  | nil =>
    simp only [List.nil_append, popFromLastMatch, hm, ha, popAnswers_cons]
    simp
  | cons p pre ih =>
    simp only [List.cons_append, popFromLastMatch, List.append_eq, ih]

theorem invoke_append (invs : List Invocation) (pre : List Stubbing)
    (st : Stubbing) (seq : Nat) (method : String) (args : List GoVal)
    (rts : List GoType) (a : Answer) (rest : List Answer)
    (hm : matchesCall st method args = true) (ha : st.answers = a :: rest) :
    invoke ⟨invs, pre ++ [st], seq⟩ method args rts =
      (⟨invs ++ [⟨method, args, seq⟩],
        pre ++ [⟨st.methodName, st.matchers, st.returnTypes,
          if rest.isEmpty then [a] else rest⟩], seq + 1⟩,
       answerResult a) := by
  unfold invoke
  rw [popFromLastMatch_append pre st method args a rest hm ha]

theorem answers_drop_step (a : Answer) (rest : List Answer) (n : Nat) :
    (if rest.isEmpty then [a] else rest).drop
      (min n ((if rest.isEmpty then [a] else rest).length - 1)) =
    (a :: rest).drop (min (n + 1) ((a :: rest).length - 1)) := by
  cases rest with
  | nil => simp
  | cons b bs =>
    simp only [List.isEmpty_cons, Bool.false_eq_true, if_false]
    have hmin : min (n + 1) ((a :: b :: bs).length - 1) =
        min n ((b :: bs).length - 1) + 1 := by
      simp only [List.length_cons]
      omega
    rw [hmin, List.drop_succ_cons]

theorem answers_getD_step (a : Answer) (rest : List Answer) (j : Nat) :
    (if rest.isEmpty then [a] else rest).getD
      (min j ((if rest.isEmpty then [a] else rest).length - 1)) (.ret []) =
    (a :: rest).getD (min (j + 1) ((a :: rest).length - 1)) (.ret []) := by
  cases rest with
  | nil => simp
  | cons b bs =>
    simp only [List.isEmpty_cons, Bool.false_eq_true, if_false]
    have hmin : min (j + 1) ((a :: b :: bs).length - 1) =
        min j ((b :: bs).length - 1) + 1 := by
      simp only [List.length_cons]
      omega
    rw [hmin, List.getD_cons_succ]

theorem invokeRepeat_succ (m : GenericMock) (method : String)
    (args : List GoVal) (rts : List GoType) (n : Nat) :
    invokeRepeat m method args rts (n + 1) =
      ((invokeRepeat (invoke m method args rts).1 method args rts n).1,
       (invoke m method args rts).2 ::
         (invokeRepeat (invoke m method args rts).1 method args rts n).2) := rfl

theorem invokeRepeat_closed (method : String) (args : List GoVal)
    (rts : List GoType) :
    ∀ (n : Nat) (invs : List Invocation) (seq : Nat) (pre : List Stubbing)
      (st : Stubbing),
      matchesCall st method args = true → st.answers ≠ [] →
      invokeRepeat ⟨invs, pre ++ [st], seq⟩ method args rts n =
        (⟨invs ++ (List.range n).map (fun j => ⟨method, args, seq + j⟩),
          pre ++ [⟨st.methodName, st.matchers, st.returnTypes,
            st.answers.drop (min n (st.answers.length - 1))⟩],
          seq + n⟩,
         (List.range n).map fun j =>
           answerResult (st.answers.getD (min j (st.answers.length - 1))
             (.ret []))) := by
  intro n
  induction n with
  | zero =>
    intro invs seq pre st hm ha
    simp [invokeRepeat]
  | succ n ih =>
    intro invs seq pre st hm ha
    obtain ⟨a, rest, ha2⟩ : ∃ a rest, st.answers = a :: rest := by
      cases h : st.answers with
      | nil => exact absurd h ha
      | cons a rest => exact ⟨a, rest, rfl⟩
    have hm2 : matchesCall ⟨st.methodName, st.matchers, st.returnTypes,
        if rest.isEmpty then [a] else rest⟩ method args = true := hm
    have ha3 : (if rest.isEmpty then [a] else rest) ≠ [] := by
      cases rest <;> simp
    rw [invokeRepeat_succ]
    rw [invoke_append invs pre st seq method args rts a rest hm ha2]
    dsimp only
    rw [ih (invs ++ [(⟨method, args, seq⟩ : Invocation)]) (seq + 1) pre
      ⟨st.methodName, st.matchers, st.returnTypes,
        if rest.isEmpty then [a] else rest⟩ hm2 ha3]
    dsimp only
    rw [ha2]
    simp only [Prod.mk.injEq, GenericMock.mk.injEq]
    refine ⟨⟨?_, ?_, by omega⟩, ?_⟩
    · rw [List.append_assoc, List.singleton_append, List.range_succ_eq_map,
        List.map_cons, List.map_map]
      congr 1
      simp
      intro a ha
      omega
    · rw [answers_drop_step]
    · rw [List.range_succ_eq_map, List.map_cons, List.map_map]
      congr 1
      · simp
      · refine List.map_congr_left fun j hj => ?_
        simp only [Function.comp_apply, Nat.succ_eq_add_one]
        exact congrArg answerResult (answers_getD_step a rest j)

/-- Claim C2: for every stubbing with `k` queued answers (`k` at least
1) matching a call, the i-th matching call returns the i-th answer for
`i` up to `k`, the (k+1)-th and every subsequent matching call returns
the k-th answer, and the last answer is never removed from the queue. -/
theorem stubbing_answers_saturate (invs : List Invocation) (seq : Nat)
    (pre : List Stubbing) (st : Stubbing) (method : String)
    (args : List GoVal) (rts : List GoType) (n i : Nat)
    (hm : matchesCall st method args = true) (ha : st.answers ≠ [])
    (h1 : 1 ≤ i) (hin : i ≤ n) :
    (i ≤ st.answers.length →
      ((invokeRepeat ⟨invs, pre ++ [st], seq⟩ method args rts n).2).getD (i - 1)
          (.returned []) =
        answerResult (st.answers.getD (i - 1) (.ret []))) ∧
    (st.answers.length ≤ i →
      ((invokeRepeat ⟨invs, pre ++ [st], seq⟩ method args rts n).2).getD (i - 1)
          (.returned []) =
        answerResult (st.answers.getD (st.answers.length - 1) (.ret []))) ∧
    (invokeRepeat ⟨invs, pre ++ [st], seq⟩ method args rts n).1.stubbings =
      pre ++ [⟨st.methodName, st.matchers, st.returnTypes,
        st.answers.drop (min n (st.answers.length - 1))⟩] ∧
    st.answers.drop (min n (st.answers.length - 1)) ≠ [] ∧
    (st.answers.drop (min n (st.answers.length - 1))).getLast? =
      st.answers.getLast? := by
  have hclosed := invokeRepeat_closed method args rts n invs seq pre st hm ha
  have hk : 1 ≤ st.answers.length := by
    cases h : st.answers with
    | nil => exact absurd h ha
    | cons a rest => simp [h]
  have hgetD :
      ((invokeRepeat ⟨invs, pre ++ [st], seq⟩ method args rts n).2).getD (i - 1)
          (.returned []) =
        answerResult (st.answers.getD (min (i - 1) (st.answers.length - 1))
          (.ret [])) := by
    rw [hclosed]
    dsimp only
    have hlt : i - 1 <
        ((List.range n).map fun j =>
          answerResult (st.answers.getD (min j (st.answers.length - 1))
            (.ret []))).length := by
      simp only [List.length_map, List.length_range]
      omega
    rw [List.getD_eq_getElem _ _ hlt, List.getElem_map, List.getElem_range]
  refine ⟨?_, ?_, ?_, ?_, ?_⟩
  · intro hik
    rw [hgetD, show min (i - 1) (st.answers.length - 1) = i - 1 by omega]
  · intro hki
    rw [hgetD,
      show min (i - 1) (st.answers.length - 1) = st.answers.length - 1 by omega]
  · rw [hclosed]
  · refine List.length_pos.mp ?_
    rw [List.length_drop]
    omega
  · rw [List.getLast?_eq_getElem?, List.getLast?_eq_getElem?,
      List.getElem?_drop, List.length_drop]
    congr 1
    omega

/-- Witness for C2, reproducing "Stubbing with consecutive return
values": with answers `"Hello"`, `"again"`, the third call still
returns `"again"`, and the last answer remains at the end of the
queue. -/
theorem stubbing_answers_saturate_witness :
    ((invokeRepeat ⟨[], [someValueStubbing], 1⟩ "SomeValue" [] [.stringT] 3).2).getD 2
        (.returned []) = .returned [.str "again"] ∧
    (someValueStubbing.answers.drop
      (min 3 (someValueStubbing.answers.length - 1))).getLast? =
      someValueStubbing.answers.getLast? := by
  constructor
  · exact ((stubbing_answers_saturate [] 1 [] someValueStubbing "SomeValue" []
      [.stringT] 3 3 (by rfl) (by decide) (by decide) (by decide)).2.1
      (by decide)).trans (by rfl)
  · exact (stubbing_answers_saturate [] 1 [] someValueStubbing "SomeValue" []
      [.stringT] 3 3 (by rfl) (by decide) (by decide) (by decide)).2.2.2.2

/-- Claim C3: when two stubbings are registered for the same method with
an identical matcher list, every subsequent matching call resolves to
the later-registered stubbing: all results come from the later
stubbing's answer queue and the earlier stubbing is left untouched in
the table, so its answers are never returned again. -/
theorem later_stubbing_wins (invs : List Invocation) (seq : Nat)
    (l1 l2 : List Stubbing) (s1 s2 : Stubbing) (method : String)
    (args : List GoVal) (rts : List GoType) (n : Nat)
    (_hname : s1.methodName = s2.methodName) (_hmatchers : s1.matchers = s2.matchers)
    (hm : matchesCall s2 method args = true) (ha : s2.answers ≠ []) :
    invokeRepeat ⟨invs, l1 ++ [s1] ++ l2 ++ [s2], seq⟩ method args rts n =
      (⟨invs ++ (List.range n).map (fun j => ⟨method, args, seq + j⟩),
        l1 ++ [s1] ++ l2 ++ [⟨s2.methodName, s2.matchers, s2.returnTypes,
          s2.answers.drop (min n (s2.answers.length - 1))⟩],
        seq + n⟩,
       (List.range n).map fun j =>
         answerResult (s2.answers.getD (min j (s2.answers.length - 1))
           (.ret []))) :=
  invokeRepeat_closed method args rts n invs seq (l1 ++ [s1] ++ l2) s2 hm ha

/-- Witness for C3, reproducing "Multiple stubbings with same
parameters": both calls return `"second"` from the later stubbing and
the earlier stubbing is still in the table, unchanged. -/
theorem later_stubbing_wins_witness :
    (invokeRepeat ⟨[], [firstStubbing, secondStubbing], 1⟩
      "MultipleParamsAndReturnValue" [.str "one", .intV 1] [.stringT] 2).2 =
      [.returned [.str "second"], .returned [.str "second"]] ∧
    (invokeRepeat ⟨[], [firstStubbing, secondStubbing], 1⟩
      "MultipleParamsAndReturnValue" [.str "one", .intV 1]
      [.stringT] 2).1.stubbings =
      [firstStubbing,
       ⟨"MultipleParamsAndReturnValue",
        [.rawEq (.str "one"), .rawEq (.intV 1)], [.stringT],
        [.ret [.str "second"]]⟩] := by
  have h := later_stubbing_wins [] 1 [] [] firstStubbing secondStubbing
    "MultipleParamsAndReturnValue" [.str "one", .intV 1] [.stringT] 2
    rfl rfl (by rfl) (by decide)
  constructor
  · exact (congrArg Prod.snd h).trans (by rfl)
  · exact (congrArg (fun p => p.1.stubbings) h).trans (by rfl)

theorem map_range_getD_apply {α : Type} (g : Nat → α) (d : α) (p i : Nat)
    (hi : i < p) : ((List.range p).map g).getD i d = g i := by
  have hlt : i < ((List.range p).map g).length := by
    simp [hi]
  rw [List.getD_eq_getElem _ _ hlt, List.getElem_map, List.getElem_range]

theorem map_range_getD_eq_self (l : List GoVal) (p : Nat) (hl : l.length = p) :
    (List.range p).map (fun i => l.getD i GoVal.nilV) = l := by
  refine List.ext_getElem (by simp [hl]) fun i h1 h2 => ?_
  rw [List.getElem_map, List.getElem_range, List.getD_eq_getElem _ _ h2]

theorem getInvocationParams_getD (q : List Invocation) (p i : Nat)
    (hp : ∀ inv ∈ q, inv.params.length = p) (hi : i < p) :
    (getInvocationParams q).getD i [] =
      q.map fun inv => inv.params.getD i GoVal.nilV := by
  cases q with
  | nil => simp [getInvocationParams]
  | cons inv0 rest =>
    have h0 : inv0.params.length = p := hp inv0 (List.mem_cons_self _ _)
    simp only [getInvocationParams]
    rw [h0]
    exact map_range_getD_apply _ _ p i hi

theorem variadic_component (q : List Invocation) (p f u : Nat)
    (hp : ∀ inv ∈ q, inv.params.length = p) (hu : u < q.length) :
    (((List.range p).map fun x =>
        q.map fun inv => inv.params.getD x GoVal.nilV).drop f).map
      (fun col => col.getD u GoVal.nilV) =
      ((q[u]).params).drop f := by
  have hul : (q[u]).params.length = p := hp _ (List.getElem_mem hu)
  refine List.ext_getElem (by simp [hul]) fun j hj1 hj2 => ?_
  have hjpf : j < p - f := by simpa using hj1
  have hfj : f + j < p := by omega
  simp only [List.getElem_map, List.getElem_drop, List.getElem_range]
  rw [List.getD_eq_getElem _ _ (by simpa using hu), List.getElem_map,
    List.getD_eq_getElem _ _ (by rw [hul]; exact hfj)]

/-- Claim C8: after a verification that matched the invocations `q`, the
generated `GetAllCapturedArguments` yields one per-position sequence per
declared parameter, each listing the arguments of all matched
invocations in occurrence order (and the variadic reassembly yields one
sequence of variadic tails per matched invocation), while
`GetCapturedArguments` yields exactly the last element of each such
sequence, i.e. the arguments of the last matched invocation. -/
theorem captured_arguments (m : GenericMock) (policy : CountPolicy)
    (method : String) (ms : List Matcher) (q : List Invocation) (p : Nat)
    (hq : verifyCount m policy method ms = .ok q)
    (hp : ∀ inv ∈ q, inv.params.length = p) :
    (getAllCapturedArguments q p).length = p ∧
    (∀ i, i < p →
      (getAllCapturedArguments q p).getD i [] =
        q.map fun inv => inv.params.getD i GoVal.nilV) ∧
    (∀ i, i < p →
      ((getAllCapturedArguments q p).getD i []).length = q.length) ∧
    (∀ last, q.getLast? = some last →
      getCapturedArguments q p = last.params) ∧
    (∀ f, f ≤ p →
      getAllCapturedVariadic q f = q.map fun inv => inv.params.drop f) := by
  have hcol : ∀ i, i < p →
      (getAllCapturedArguments q p).getD i [] =
        q.map fun inv => inv.params.getD i GoVal.nilV := by
    intro i hi
    unfold getAllCapturedArguments
    rw [map_range_getD_apply _ _ p i hi]
    exact getInvocationParams_getD q p i hp hi
  refine ⟨by simp [getAllCapturedArguments], hcol, ?_, ?_, ?_⟩
  · intro i hi
    rw [hcol i hi]
    simp
  · intro last hlast
    have hne : q ≠ [] := by
      intro h
      rw [h] at hlast
      exact Option.noConfusion hlast
    have hqlen : 0 < q.length := List.length_pos.mpr hne
    have hqlen1 : q.length - 1 < q.length := by omega
    have hqel : q[q.length - 1] = last := by
      rw [List.getLast?_eq_getElem?] at hlast
      rw [List.getElem?_eq_getElem (by omega : q.length - 1 < q.length)] at hlast
      exact Option.some.inj hlast
    have hmem : last ∈ q := by
      rw [← hqel]
      exact List.getElem_mem _
    have hlp : last.params.length = p := hp last hmem
    unfold getCapturedArguments
    rw [← map_range_getD_eq_self last.params p hlp]
    unfold getAllCapturedArguments
    rw [List.map_map]
    refine List.map_congr_left fun i hi => ?_
    have hip : i < p := List.mem_range.mp hi
    simp only [Function.comp_apply]
    rw [getInvocationParams_getD q p i hp hip]
    have hmaplen : (q.map fun inv => inv.params.getD i GoVal.nilV).length =
        q.length := by simp
    rw [hmaplen]
    rw [List.getD_eq_getElem _ _
      (by simp only [List.length_map]; omega), List.getElem_map]
    have := congrArg (fun inv : Invocation => inv.params.getD i GoVal.nilV) hqel
    simpa using this
  · intro f hf
    cases q with
    | nil => simp [getAllCapturedVariadic, getInvocationParams]
    | cons inv0 rest =>
      have h0 : inv0.params.length = p :=
        hp inv0 (List.mem_cons_self _ _)
      simp only [getAllCapturedVariadic, getInvocationParams]
      rw [h0]
      refine List.ext_getElem (by simp) fun u hu1 hu2 => ?_
      have hu : u < (inv0 :: rest).length := by simpa using hu2
      simp only [List.getElem_map, List.getElem_range]
      exact variadic_component (inv0 :: rest) p f u hp hu

/-- Witness for C8, reproducing the "Capturing arguments" tests: over
the two matched `Flash` invocations, all-capture returns both arguments
per position in call order, and capture returns the arguments of the
last invocation. -/
theorem captured_arguments_witness :
    (getAllCapturedArguments
      [⟨"Flash", [.str "Hello", .intV 111], 1⟩,
       ⟨"Flash", [.str "Again", .intV 222], 2⟩] 2).getD 0 [] =
      [.str "Hello", .str "Again"] ∧
    (getAllCapturedArguments
      [⟨"Flash", [.str "Hello", .intV 111], 1⟩,
       ⟨"Flash", [.str "Again", .intV 222], 2⟩] 2).getD 1 [] =
      [.intV 111, .intV 222] ∧
    getCapturedArguments
      [⟨"Flash", [.str "Hello", .intV 111], 1⟩,
       ⟨"Flash", [.str "Again", .intV 222], 2⟩] 2 =
      [.str "Again", .intV 222] := by
  have h := captured_arguments captureMock (.atLeast 1) "Flash"
    [.anyM .stringT, .anyM .intT]
    [⟨"Flash", [.str "Hello", .intV 111], 1⟩,
     ⟨"Flash", [.str "Again", .intV 222], 2⟩] 2 (by rfl) (by decide)
  refine ⟨?_, ?_, ?_⟩
  · exact (h.2.1 0 (by decide)).trans (by rfl)
  · exact (h.2.1 1 (by decide)).trans (by rfl)
  · exact (h.2.2.2.1 ⟨"Flash", [.str "Again", .intV 222], 2⟩ (by rfl)).trans
      (by rfl)

end Pegomock

namespace Mockgen

theorem charDigit_digitChar (d : Nat) (h : d < 10) :
    charDigit (digitChar d) = d := by
  interval_cases d <;> rfl

theorem atoi_itoa (n : Nat) : atoi (itoa n) = n := by
  unfold itoa atoi
  by_cases h : n = 0
  · subst h
    rfl
  · rw [if_neg h, List.reverse_reverse, List.map_map]
    have h2 : ∀ d ∈ Nat.digits 10 n, (charDigit ∘ digitChar) d = id d := by
      intro d hd
      exact charDigit_digitChar d (Nat.digits_lt_base (by norm_num) hd)
    rw [List.map_congr_left h2, List.map_id, Nat.ofDigits_digits]

theorem itoa_injective : Function.Injective itoa := by
  intro a b h
  rw [← atoi_itoa a, ← atoi_itoa b, h]

theorem itoa_ne_nil (n : Nat) : itoa n ≠ [] := by
  unfold itoa
  by_cases h : n = 0
  · simp [h]
  · rw [if_neg h]
    simp [Nat.digits_ne_nil_iff_ne_zero.mpr h]

theorem candName_injective (base : GoStr) :
    Function.Injective (candName base) := by
  intro i j h
  cases i with
  | zero =>
    cases j with
    | zero => rfl
    | succ j =>
      exfalso
      have hlen := congrArg List.length h
      simp only [candName, List.length_append] at hlen
      have hne : (itoa j).length ≠ 0 := fun h0 =>
        itoa_ne_nil j (List.length_eq_zero.mp h0)
      omega
  | succ i =>
    cases j with
    | zero =>
      exfalso
      have hlen := congrArg List.length h
      simp only [candName, List.length_append] at hlen
      have hne : (itoa i).length ≠ 0 := fun h0 =>
        itoa_ne_nil i (List.length_eq_zero.mp h0)
      omega
    | succ j =>
      simp only [candName] at h
      exact congrArg Nat.succ (itoa_injective (List.append_cancel_left h))

theorem isBadName_false_iff (used : List GoStr) (s : GoStr) :
    isBadName used s = false ↔ s ∉ used ∧ isGoKeyword s = false := by
  unfold isBadName
  rw [Bool.or_eq_false_iff]
  simp

theorem exists_good_candidate (base : GoStr) (used : List GoStr) :
    ∃ j, j ≤ used.length + goKeywords.length ∧
      isBadName used (candName base j) = false := by
  by_contra hcon
  push_neg at hcon
  have hbad : ∀ j, j ≤ used.length + goKeywords.length →
      isBadName used (candName base j) = true := by
    intro j hj
    cases h : isBadName used (candName base j) with
    | false => exact absurd h (hcon j hj)
    | true => rfl
  have hmem : ∀ j, j ≤ used.length + goKeywords.length →
      candName base j ∈ used ++ goKeywords := by
    intro j hj
    have h := hbad j hj
    unfold isBadName at h
    rw [Bool.or_eq_true] at h
    rw [List.mem_append]
    rcases h with h | h
    · left
      simpa using h
    · right
      unfold isGoKeyword at h
      simpa using h
  have hnodup :
      ((List.range (used.length + goKeywords.length + 1)).map
        (candName base)).Nodup :=
    (List.nodup_range _).map (candName_injective base)
  have hsub :
      ((List.range (used.length + goKeywords.length + 1)).map
        (candName base)).toFinset ⊆ (used ++ goKeywords).toFinset := by
    intro x hx
    rw [List.mem_toFinset] at hx ⊢
    obtain ⟨j, hj, rfl⟩ := List.mem_map.mp hx
    exact hmem j (by have := List.mem_range.mp hj; omega)
  have h1 :
      ((List.range (used.length + goKeywords.length + 1)).map
        (candName base)).toFinset.card =
      used.length + goKeywords.length + 1 := by
    rw [List.toFinset_card_of_nodup hnodup]
    simp
  have h2 : (used ++ goKeywords).toFinset.card ≤
      used.length + goKeywords.length := by
    calc (used ++ goKeywords).toFinset.card ≤ (used ++ goKeywords).length :=
          List.toFinset_card_le _
      _ = used.length + goKeywords.length := by simp
  have h3 := Finset.card_le_card hsub
  omega

theorem pickFrom_spec (base : GoStr) (used : List GoStr) :
    ∀ (fuel i0 : Nat),
      (∃ j, i0 ≤ j ∧ j ≤ i0 + fuel ∧
        isBadName used (candName base j) = false) →
      ∃ i, i0 ≤ i ∧ pickFrom base used i0 fuel = candName base i ∧
        isBadName used (candName base i) = false ∧
        ∀ j, i0 ≤ j → j < i → isBadName used (candName base j) = true := by
  intro fuel
  induction fuel with
  | zero =>
    rintro i0 ⟨j, hj1, hj2, hj3⟩
    have hj : j = i0 := by omega
    subst hj
    exact ⟨j, le_refl _, rfl, hj3, fun k hk1 hk2 => absurd hk2 (by omega)⟩
  | succ fuel ih =>
    rintro i0 ⟨j, hj1, hj2, hj3⟩
    cases hb : isBadName used (candName base i0) with
    | false =>
      refine ⟨i0, le_refl _, ?_, hb, fun k hk1 hk2 => absurd hk2 (by omega)⟩
      unfold pickFrom
      rw [hb]
      simp
    | true =>
      have hji : j ≠ i0 := fun hh => by rw [hh, hb] at hj3; cases hj3
      obtain ⟨i, hi1, hi2, hi3, hi4⟩ :=
        ih (i0 + 1) ⟨j, by omega, by omega, hj3⟩
      refine ⟨i, by omega, ?_, hi3, ?_⟩
      · unfold pickFrom
        rw [hb]
        simpa using hi2
      · intro k hk1 hk2
        rcases Nat.eq_or_lt_of_le hk1 with hh | hh
        · rw [← hh]
          exact hb
        · exact hi4 k (by omega) hk2

theorem pickPackageName_spec (base : GoStr) (used : List GoStr) :
    ∃ i, pickPackageName base used = candName base i ∧
      isBadName used (candName base i) = false ∧
      ∀ j, j < i → isBadName used (candName base j) = true := by
  obtain ⟨j, hj1, hj2⟩ := exists_good_candidate base used
  obtain ⟨i, _, h2, h3, h4⟩ := pickFrom_spec base used
    (used.length + goKeywords.length + 1) 0 ⟨j, Nat.zero_le _, by omega, hj2⟩
  exact ⟨i, h2, h3, fun k hk => h4 k (Nat.zero_le _) hk⟩

theorem sanitize_valid (s : GoStr) (h : s ≠ []) :
    isValidGoIdent (sanitize s) = true := by
  cases s with
  | nil => exact absurd rfl h
  | cons c cs =>
    simp only [sanitize]
    by_cases ht : sanitizeHeadChar c :: cs.map sanitizeTailChar = ['_']
    · rw [if_pos ht]
      decide
    · rw [if_neg ht]
      simp only [isValidGoIdent]
      rw [Bool.and_eq_true]
      constructor
      · cases hc : (goIsLetter c || c = '_' : Bool) with
        | true =>
          have hsc : sanitizeHeadChar c = c := by
            unfold sanitizeHeadChar
            simp [hc]
          rw [hsc]
          exact hc
        | false =>
          have hsc : sanitizeHeadChar c = '_' := by
            unfold sanitizeHeadChar
            simp [hc]
          rw [hsc]
          decide
      · rw [List.all_eq_true]
        intro x hx
        obtain ⟨y, hy, rfl⟩ := List.mem_map.mp hx
        cases h2 : (goIsLetter y || goIsDigit y || y = '_' : Bool) with
        | true =>
          have hst : sanitizeTailChar y = y := by
            unfold sanitizeTailChar
            simp [h2]
          rw [hst]
          exact h2
        | false =>
          have hst : sanitizeTailChar y = '_' := by
            unfold sanitizeTailChar
            simp [h2]
          rw [hst]
          decide

theorem takeWhile_dropWhile_slash_ne_nil (l : GoStr)
    (h : l.dropWhile (fun c => c = '/') ≠ []) :
    (l.dropWhile (fun c => c = '/')).takeWhile (fun c => c ≠ '/') ≠ [] := by
  induction l with
  | nil => exact absurd rfl h
  | cons c cs ih =>
    by_cases hc : c = '/'
    · rw [List.dropWhile_cons] at h ⊢
      rw [if_pos (by simp [hc])] at h ⊢
      exact ih h
    · rw [List.dropWhile_cons]
      rw [if_neg (by simp [hc])]
      rw [List.takeWhile_cons]
      rw [if_pos (by simp [hc])]
      simp

theorem pathBase_ne_nil (p : GoStr) : pathBase p ≠ [] := by
  unfold pathBase
  by_cases hp : p = []
  · simp [hp]
  · rw [if_neg hp]
    by_cases hr : p.reverse.dropWhile (fun c => c = '/') = []
    · simp [hr]
    · rw [if_neg hr]
      simp only [ne_eq, List.reverse_eq_nil_iff]
      exact takeWhile_dropWhile_slash_ne_nil p.reverse hr

theorem itoa_chars (n : Nat) : ∀ c ∈ itoa n, isGoIdentChar c = true := by
  intro c hc
  unfold itoa at hc
  by_cases h : n = 0
  · rw [if_pos h] at hc
    simp only [List.mem_singleton] at hc
    subst hc
    decide
  · rw [if_neg h] at hc
    rw [List.mem_reverse] at hc
    obtain ⟨d, hd, rfl⟩ := List.mem_map.mp hc
    have hdlt : d < 10 := Nat.digits_lt_base (by norm_num) hd
    interval_cases d <;> decide

theorem candName_valid (base : GoStr) (i : Nat)
    (h : isValidGoIdent base = true) :
    isValidGoIdent (candName base i) = true := by
  cases i with
  | zero => exact h
  | succ i =>
    cases base with
    | nil => exact absurd h (by decide)
    | cons c cs =>
      simp only [candName, List.cons_append, isValidGoIdent] at h ⊢
      rw [Bool.and_eq_true] at h ⊢
      refine ⟨h.1, ?_⟩
      rw [List.all_append, Bool.and_eq_true]
      exact ⟨h.2, List.all_eq_true.mpr (itoa_chars i)⟩

theorem generateUniqueLoop_spec :
    ∀ (ps used : List GoStr),
      ((generateUniqueLoop ps used).map Prod.fst = ps) ∧
      ((generateUniqueLoop ps used).map Prod.snd).Nodup ∧
      (∀ pr ∈ generateUniqueLoop ps used,
        isBadName used pr.2 = false ∧
        ∃ i, pr.2 = candName (sanitize (pathBase pr.1)) i) := by
  intro ps
  induction ps with
  | nil =>
    intro used
    exact ⟨rfl, List.nodup_nil, by simp [generateUniqueLoop]⟩
  | cons p ps ih =>
    intro used
    obtain ⟨hfst, hnodup, hmem⟩ :=
      ih (pickPackageName (sanitize (pathBase p)) used :: used)
    obtain ⟨i0, hpick, hgood, _⟩ :=
      pickPackageName_spec (sanitize (pathBase p)) used
    refine ⟨?_, ?_, ?_⟩
    · simp only [generateUniqueLoop, List.map_cons, hfst]
    · simp only [generateUniqueLoop, List.map_cons]
      rw [List.nodup_cons]
      refine ⟨?_, hnodup⟩
      intro hmem2
      obtain ⟨pr, hpr, hpr2⟩ := List.mem_map.mp hmem2
      have hb := (hmem pr hpr).1
      rw [isBadName_false_iff] at hb
      exact hb.1 (by rw [hpr2]; exact List.mem_cons_self _ _)
    · intro pr hpr
      simp only [generateUniqueLoop] at hpr
      rcases List.mem_cons.mp hpr with hh | hh
      · subst hh
        refine ⟨?_, ⟨i0, ?_⟩⟩
        · simpa only [← hpick] using (by rw [hpick]; exact hgood :
            isBadName used (pickPackageName (sanitize (pathBase p)) used) = false)
        · exact hpick
      · obtain ⟨hb, hex⟩ := hmem pr hh
        rw [isBadName_false_iff] at hb
        refine ⟨?_, hex⟩
        rw [isBadName_false_iff]
        exact ⟨fun hc => hb.1 (List.mem_cons_of_mem _ hc), hb.2⟩

/-- Claim C10 (amended: `sanitize` yields a valid identifier for every
non-empty input; on the empty string, which `path.Base` never produces,
it returns the empty string): `generateUniquePackageNamesFor` assigns
each import path a package name such that the assigned names are
pairwise distinct, none is a Go keyword, and each is a valid non-empty
Go identifier; `sanitize` maps any non-empty string to
letters/digits/underscores starting with a letter or underscore and
maps a lone underscore to `x`; collisions are resolved by trying the
sanitized base name and then the suffixes 0, 1, 2, ..., taking the
first candidate that is neither used nor a keyword. -/
theorem generate_unique_package_names (importPaths : List GoStr) :
    ((generateUniquePackageNamesFor importPaths).map Prod.fst = importPaths) ∧
    ((generateUniquePackageNamesFor importPaths).map Prod.snd).Nodup ∧
    (∀ pr ∈ generateUniquePackageNamesFor importPaths,
      isGoKeyword pr.2 = false ∧ isValidGoIdent pr.2 = true ∧
      ∃ i, pr.2 = candName (sanitize (pathBase pr.1)) i) ∧
    (∀ (base : GoStr) (used : List GoStr),
      ∃ i, pickPackageName base used = candName base i ∧
        isBadName used (candName base i) = false ∧
        ∀ j, j < i → isBadName used (candName base j) = true) ∧
    (∀ s : GoStr, s ≠ [] → isValidGoIdent (sanitize s) = true) ∧
    sanitize ['_'] = ['x'] := by
  obtain ⟨hfst, hnodup, hmem⟩ := generateUniqueLoop_spec importPaths []
  refine ⟨hfst, hnodup, ?_, pickPackageName_spec, sanitize_valid, rfl⟩
  intro pr hpr
  obtain ⟨hbad, i, hi⟩ := hmem pr hpr
  rw [isBadName_false_iff] at hbad
  refine ⟨hbad.2, ?_, ⟨i, hi⟩⟩
  rw [hi]
  exact candName_valid _ i (sanitize_valid _ (pathBase_ne_nil pr.1))

/-- Counterexample for C10 as stated: `sanitize` maps the empty string
to the empty string, which is not a valid non-empty Go identifier
starting with a letter or underscore, so "sanitize maps any string to
letters/digits/underscores starting with a letter or underscore" fails
at the empty string. -/
theorem sanitize_empty_not_identifier :
    sanitize ([] : GoStr) = [] ∧
    isValidGoIdent (sanitize ([] : GoStr)) = false :=
  ⟨rfl, rfl⟩

/-- Witness for C10: on the import paths `html/template`,
`text/template` and `foo/case`, the assigned names are `template`,
`template0` (duplicate base resolved by suffix 0) and `case0` (keyword
base resolved by suffix 0); they are pairwise distinct, and `sanitize`
yields a valid identifier on a concrete non-empty input. -/
theorem generate_unique_package_names_witness :
    (generateUniquePackageNamesFor demoImportPaths).map Prod.snd =
      ["template".toList, "template0".toList, "case0".toList] ∧
    ((generateUniquePackageNamesFor demoImportPaths).map Prod.snd).Nodup ∧
    isValidGoIdent (sanitize ("html-template".toList)) = true := by
  refine ⟨by rfl, (generate_unique_package_names demoImportPaths).2.1, ?_⟩
  exact (generate_unique_package_names demoImportPaths).2.2.2.2.1
    ("html-template".toList) (by decide)

end Mockgen
